import Mathlib

/-
Shallow embedding of src/ftag/transform.py.

Batches are Python dicts mapping group names to numpy structured arrays;
both dicts and arrays are modelled as association lists.  Numpy dtypes are
modelled as tags; numeric payloads are exact (bool / rational / integer)
since no claim depends on machine rounding.  In-place mutation plus raised
exceptions are modelled by explicit state passing: a stateful method
returns the batch as mutated up to the point of the raise, together with
an optional error message.
-/

/-- Storage dtype tag of a structured-array field (numpy dtype codes). -/
inductive DType
  | b1
  | f4
  | i4
  | other (code : String)
  deriving DecidableEq

/-- A scalar cell stored in a column of a structured array. -/
inductive Cell
  | cBool (b : Bool)
  | cFloat (q : Rat)
  | cInt (z : Int)
  deriving DecidableEq

/-- One named, typed column of a structured array. -/
structure SField where
  name : String
  dtype : DType
  data : List Cell
  deriving DecidableEq

/-- A numpy structured array: ordered named columns plus the record count. -/
structure StructArr where
  fields : List SField
  size : Nat
  deriving DecidableEq

/-- A batch maps group names to structured arrays (a Python dict). -/
abbrev Batch := List (String × StructArr)

/-- Python dict lookup `d.get(k)` on an association list (first binding wins;
Python dict keys are unique). -/
def dlookup {α : Type} : List (String × α) → String → Option α
  | [], _ => none
  | p :: rest, k => if p.1 = k then some p.2 else dlookup rest k

/-- Python dict assignment `d[k] = v`: overwrite the existing binding in
place, else append a new one. -/
def dictSet {α : Type} : List (String × α) → String → α → List (String × α)
  | [], k, v => [(k, v)]
  | p :: rest, k, v => if p.1 = k then (k, v) :: rest else p :: dictSet rest k v

/-- The key list of a Python dict. -/
def keysOf {α : Type} (d : List (String × α)) : List String :=
  d.map Prod.fst

/-- The field names of a structured array (`arr.dtype.names`). -/
def fieldNames (arr : StructArr) : List String :=
  arr.fields.map SField.name

/-- Field access on the column list of a structured array. -/
def getColL : List SField → String → Option (List Cell)
  | [], _ => none
  | f :: rest, v => if f.name = v then some f.data else getColL rest v

/-- Field access `arr[v]` on a structured array. -/
def getCol (arr : StructArr) (v : String) : Option (List Cell) :=
  getColL arr.fields v

/-- In-place overwrite of the values of field `v` (`arr[v] = col`). -/
def setCol (arr : StructArr) (v : String) (col : List Cell) : StructArr :=
  ⟨arr.fields.map (fun f => if f.name = v then ⟨f.name, f.dtype, col⟩ else f), arr.size⟩

/-- The dtype of a structured array, as an ordered name/tag list. -/
def schemaOf (arr : StructArr) : List (String × DType) :=
  arr.fields.map (fun f => (f.name, f.dtype))

/-- Structured-array cast `arr.astype(dt)` for a same-length dtype: numpy
matches fields by position, so values stay and names/tags come from `dt`. -/
def astype (arr : StructArr) (dt : List (String × DType)) : StructArr :=
  ⟨(arr.fields.zip dt).map (fun p => ⟨p.2.1, p.2.2, p.1.data⟩), arr.size⟩

/-- `numpy.lib.recfunctions.append_fields`: add one field at the end. -/
def appendField (arr : StructArr) (v : String) (dt : DType) (col : List Cell) : StructArr :=
  ⟨arr.fields ++ [⟨v, dt, col⟩], arr.size⟩

/-- Python `name.lstrip("/")`: drop every leading slash (char 47). -/
def stripSlash (s : String) : String :=
  String.mk (s.data.dropWhile (fun c => c == Char.ofNat 47))

/-- Python `map_dict.get(name, name)`: look up with the key as default. -/
def dget : List (String × String) → String → String
  | [], x => x
  | p :: rest, x => if p.1 = x then p.2 else dget rest x

/-- One step of building a Python dict: `d[k] = v` on a string dict. -/
def pyInsert (d : List (String × String)) (k v : String) : List (String × String) :=
  if d.any (fun p => p.1 == k) then d.map (fun p => if p.1 = k then (k, v) else p)
  else d ++ [(k, v)]

/-- The Python dict built from a pair sequence (later bindings overwrite). -/
def pyDictOf (l : List (String × String)) : List (String × String) :=
  l.foldl (fun d p => pyInsert d p.1 p.2) []

/-- Swap every pair, as in the comprehension that inverts a rename table. -/
def swapPairs (m : List (String × String)) : List (String × String) :=
  m.map (fun p => (p.2, p.1))

/-- The inverse rename tables built in `__post_init__`:
per group, the dict comprehension over swapped pairs. -/
def invTables (vm : List (String × List (String × String))) :
    List (String × List (String × String)) :=
  vm.map (fun gm => (gm.1, pyDictOf (swapPairs gm.2)))

/-- An elementwise numpy function, as stored after name resolution. -/
abbrev NpFun := Cell → Cell

/-- The numpy namespace used by `getattr(np, func)`. -/
abbrev NpNamespace := String → Option NpFun

/-- The identity elementwise function, used as a harmless default. -/
def idNp : NpFun := fun c => c

/-- A dynamically typed Python scalar, as supplied in `insert_vars`. -/
inductive PyVal
  | pBool (b : Bool)
  | pFloat (q : Rat)
  | pInt (z : Int)
  | pStr (s : String)
  | pNone
  deriving DecidableEq

/-- Rendering of `type(value)` for the TypeError message (quotes omitted). -/
def pyTypeName : PyVal → String
  | .pBool _ => "<class bool>"
  | .pFloat _ => "<class float>"
  | .pInt _ => "<class int>"
  | .pStr _ => "<class str>"
  | .pNone => "<class NoneType>"

/-- The raw constructor arguments of the Transform dataclass
(each table may be omitted, i.e. None). -/
structure TransformArgs where
  variable_map : Option (List (String × List (String × String))) := none
  ints_map : Option (List (String × List (String × List (Int × Int)))) := none
  floats_map : Option (List (String × List (String × String))) := none
  insert_vars : Option (List (String × List (String × PyVal))) := none

/-- The normalized Transform configuration after `__post_init__`. -/
structure Transform where
  variable_map : List (String × List (String × String))
  variable_map_inv : List (String × List (String × String))
  ints_map : List (String × List (String × List (Int × Int)))
  floats_map : List (String × List (String × NpFun))
  insert_vars : List (String × List (String × PyVal))

/-- Resolution of one group of `floats_map`: each function name is looked up
with `getattr(np, func)`; a missing attribute raises. -/
def resolveEntries (ns : NpNamespace) : List (String × String) → Except String (List (String × NpFun))
  | [] => .ok []
  | (v, fn) :: rest =>
    match ns fn with
    | none => .error ("AttributeError: module numpy has no attribute " ++ fn)
    | some f =>
      match resolveEntries ns rest with
      | .error e => .error e
      | .ok r => .ok ((v, f) :: r)

/-- Resolution of the whole `floats_map`, group by group. -/
def resolveFloats (ns : NpNamespace) : List (String × List (String × String)) →
    Except String (List (String × List (String × NpFun)))
  | [] => .ok []
  | (g, fm) :: rest =>
    match resolveEntries ns fm with
    | .error e => .error e
    | .ok fm2 =>
      match resolveFloats ns rest with
      | .error e => .error e
      | .ok r => .ok ((g, fm2) :: r)

/-- `Transform.__post_init__`: default the four tables to empty, build the
inverse rename tables, and resolve every numeric function name against the
numpy namespace (construction fails on an unknown name). -/
def postInit (raw : TransformArgs) (ns : NpNamespace) : Except String Transform :=
  match resolveFloats ns (raw.floats_map.getD []) with
  | .error e => .error e
  | .ok fm =>
    .ok ⟨raw.variable_map.getD [], invTables (raw.variable_map.getD []),
      raw.ints_map.getD [], fm, raw.insert_vars.getD []⟩

/-- The sequential in-place loop `for old, new in int_map.items():
data[data == old] = new` over one column. -/
def map_ints_field : List (Int × Int) → List Cell → List Cell
  | [], col => col
  | (old, new) :: rest, col =>
    map_ints_field rest (col.map (fun c => if c = Cell.cInt old then Cell.cInt new else c))

/-- The per-group loop of `map_ints`: fields missing from the dtype are
skipped, present fields are rewritten in place. -/
def map_ints_group : List (String × List (Int × Int)) → StructArr → StructArr
  | [], arr => arr
  | (v, im) :: rest, arr =>
    match getCol arr v with
    | none => map_ints_group rest arr
    | some col => map_ints_group rest (setCol arr v (map_ints_field im col))

/-- The group loop of `map_ints`: groups missing from the batch are skipped. -/
def map_ints_aux : List (String × List (String × List (Int × Int))) → Batch → Batch
  | [], b => b
  | (g, md) :: rest, b =>
    match dlookup b g with
    | none => map_ints_aux rest b
    | some arr => map_ints_aux rest (dictSet b g (map_ints_group md arr))

/-- `Transform.map_ints`: map integer values to new values, in place. -/
def map_ints (t : Transform) (b : Batch) : Batch :=
  map_ints_aux t.ints_map b

/-- The per-group loop of `map_floats`: `batch[group][variable]` raises a
KeyError when the field is absent; otherwise the field is replaced by the
elementwise image under the configured function. -/
def apply_floats_fields : List (String × NpFun) → StructArr → StructArr × Option String
  | [], arr => (arr, none)
  | (v, f) :: rest, arr =>
    match getCol arr v with
    | none => (arr, some ("KeyError: " ++ v))
    | some col => apply_floats_fields rest (setCol arr v (col.map f))

/-- The group loop of `map_floats`: groups missing from the batch are
skipped; an exception aborts the loop with the batch as mutated so far. -/
def map_floats_aux : List (String × List (String × NpFun)) → Batch → Batch × Option String
  | [], b => (b, none)
  | (g, fm) :: rest, b =>
    match dlookup b g with
    | none => map_floats_aux rest b
    | some arr =>
      match apply_floats_fields fm arr with
      | (arr2, none) => map_floats_aux rest (dictSet b g arr2)
      | (arr2, some e) => (dictSet b g arr2, some e)

/-- `Transform.map_floats`: transform float values. -/
def map_floats (t : Transform) (b : Batch) : Batch × Option String :=
  map_floats_aux t.floats_map b

/-- The message of the TypeError raised for an unsupported default value. -/
def unknownTypeMsg (val : PyVal) (v : String) : String :=
  "Unknown type " ++ pyTypeName val ++ " for " ++ v

/-- The body of the insertion loop for one configured default: skip a field
already in the schema, else infer the storage dtype from the value type
(bool before float before int) and append a constant column. -/
def insertOne (arr : StructArr) (v : String) (val : PyVal) : StructArr × Option String :=
  if v ∈ fieldNames arr then (arr, none)
  else
    match val with
    | .pBool bb => (appendField arr v .b1 (List.replicate arr.size (.cBool bb)), none)
    | .pFloat q => (appendField arr v .f4 (List.replicate arr.size (.cFloat q)), none)
    | .pInt z => (appendField arr v .i4 (List.replicate arr.size (.cInt z)), none)
    | _ => (arr, some (unknownTypeMsg val v))

/-- The per-group loop of `insert_variables` over the configured defaults. -/
def insertGroupFields : List (String × PyVal) → StructArr → StructArr × Option String
  | [], arr => (arr, none)
  | (v, val) :: rest, arr =>
    match insertOne arr v val with
    | (arr2, none) => insertGroupFields rest arr2
    | (arr2, some e) => (arr2, some e)

/-- The group loop of `insert_variables`: groups missing from the batch are
skipped; an exception aborts with the batch as mutated so far. -/
def insert_variables_aux : List (String × List (String × PyVal)) → Batch → Batch × Option String
  | [], b => (b, none)
  | (g, ins) :: rest, b =>
    match dlookup b g with
    | none => insert_variables_aux rest b
    | some arr =>
      match insertGroupFields ins arr with
      | (arr2, none) => insert_variables_aux rest (dictSet b g arr2)
      | (arr2, some e) => (dictSet b g arr2, some e)

/-- `Transform.insert_variables`: insert new variables with defaults. -/
def insert_variables (t : Transform) (b : Batch) : Batch × Option String :=
  insert_variables_aux t.insert_vars b

/-- The collision scan of `map_dtype`: the first rename entry whose old and
new names both occur in the dtype raises a ValueError. -/
def findCollision : List (String × String) → List String → Option (String × String)
  | [], _ => none
  | p :: rest, names =>
    if p.1 ∈ names ∧ p.2 ∈ names then some p else findCollision rest names

/-- The ValueError message of the collision scan (quotes omitted). -/
def collisionMsg (old new name : String) : String :=
  "Variables (" ++ old ++ ", " ++ new ++ ") already exists in " ++ name ++ "."

/-- `Transform.map_dtype`: the rename table is looked up under the group
name with leading slashes stripped; a missing or empty table returns the
dtype unchanged; otherwise collisions raise and field names are mapped. -/
def map_dtype (t : Transform) (name : String) (dtype : List (String × DType)) :
    Except String (List (String × DType)) :=
  match dlookup t.variable_map (stripSlash name) with
  | none => .ok dtype
  | some m =>
    if m.isEmpty then .ok dtype
    else
      match findCollision m (dtype.map Prod.fst) with
      | some p => .error (collisionMsg p.1 p.2 name)
      | none => .ok (dtype.map (fun nd => (dget m nd.1, nd.2)))

/-- The group loop of `map_variables` over the keys of the rename table:
present groups are cast to the renamed dtype; a collision aborts with the
batch as mutated so far. -/
def map_variables_aux (t : Transform) : List String → Batch → Batch × Option String
  | [], b => (b, none)
  | g :: rest, b =>
    match dlookup b g with
    | none => map_variables_aux t rest b
    | some arr =>
      match map_dtype t g (schemaOf arr) with
      | .error e => (b, some e)
      | .ok dt => map_variables_aux t rest (dictSet b g (astype arr dt))

/-- `Transform.map_variables`: rename variables in a batch of data. -/
def map_variables (t : Transform) (b : Batch) : Batch × Option String :=
  map_variables_aux t (keysOf t.variable_map) b

/-- `Transform.map_variable_names`: pure name translation for one group,
forward or inverse; the table is looked up with leading slashes stripped
and a missing or empty table is a passthrough. -/
def map_variable_names (t : Transform) (name : String) (vs : List String)
    (inverse : Bool) : List String :=
  match dlookup (cond inverse t.variable_map_inv t.variable_map) (stripSlash name) with
  | none => vs
  | some m => if m.isEmpty then vs else vs.map (dget m)

/-- `Transform.__call__`: the four stages in their fixed order, stopping at
the first raised error. -/
def transform (t : Transform) (b : Batch) : Batch × Option String :=
  match map_floats t (map_ints t b) with
  | (b2, some e) => (b2, some e)
  | (b2, none) =>
    match insert_variables t b2 with
    | (b3, some e) => (b3, some e)
    | (b3, none) => map_variables t b3

/-- First match in an integer old-to-new table. -/
def ilookup : List (Int × Int) → Int → Option Int
  | [], _ => none
  | p :: rest, z => if p.1 = z then some p.2 else ilookup rest z

/-- Modelled from the spec: the conflict-free single-pass substitution that
section 4.2 mandates for integer remapping — every original value is looked
up once in the table and never rewritten again. -/
def map_ints_field_onepass (im : List (Int × Int)) (col : List Cell) : List Cell :=
  col.map (fun c =>
    match c with
    | .cInt z =>
      match ilookup im z with
      | some n => Cell.cInt n
      | none => c
    | _ => c)

/-- The dtype tag of one field of a column list. -/
def getDTypeL : List SField → String → Option DType
  | [], _ => none
  | f :: rest, v => if f.name = v then some f.dtype else getDTypeL rest v

/-- The dtype tag of one field of a structured array. -/
def getDType (arr : StructArr) (v : String) : Option DType :=
  getDTypeL arr.fields v

/-- Field `v` was appended to `arr` giving `arr2`, with storage tag `dt` and
the constant cell `c` in every record; all other fields are untouched and
the record count is preserved. -/
def insertedAs (arr arr2 : StructArr) (v : String) (dt : DType) (c : Cell) : Prop :=
  arr2.size = arr.size ∧
  fieldNames arr2 = fieldNames arr ++ [v] ∧
  getCol arr2 v = some (List.replicate arr.size c) ∧
  getDType arr2 v = some dt ∧
  ∀ w, w ≠ v → getCol arr2 w = getCol arr w ∧ getDType arr2 w = getDType arr w

/-! Concrete configurations and batches used to exercise the definitions. -/

/-- An overlapping integer table: the new value 2 is also a later old key. -/
def exC1_im : List (Int × Int) := [(1, 2), (2, 3)]

/-- A tracks array with an i4 flavor column holding 1 and 2. -/
def exC1_arr : StructArr := ⟨[⟨"flavor", DType.i4, [Cell.cInt 1, Cell.cInt 2]⟩], 2⟩

/-- A Transform whose only table is the overlapping integer map. -/
def exC1_t : Transform := ⟨[], [], [("tracks", [("flavor", exC1_im)])], [], []⟩

/-- The batch holding the flavor column. -/
def exC1_b : Batch := [("tracks", exC1_arr)]

/-- A one-entry rename table: pt becomes pT. -/
def exC2_vm : List (String × List (String × String)) := [("tracks", [("pt", "pT")])]

/-- A Transform with that rename table and its derived inverse. -/
def exC2_t : Transform := ⟨exC2_vm, invTables exC2_vm, [], [], []⟩

/-- A tracks array whose only field is eta. -/
def exC3_arr : StructArr := ⟨[⟨"eta", DType.f4, [Cell.cFloat 1]⟩], 1⟩

/-- A Transform whose floats table targets the absent field pt. -/
def exC3_t : Transform := ⟨[], [], [], [("tracks", [("pt", idNp)])], []⟩

/-- The batch with the eta-only tracks group. -/
def exC3_b : Batch := [("tracks", exC3_arr)]

/-- The rename table pt to pT, used against a colliding schema. -/
def exC4_vm : List (String × List (String × String)) := [("tracks", [("pt", "pT")])]

/-- A Transform renaming pt to pT. -/
def exC4_t : Transform := ⟨exC4_vm, invTables exC4_vm, [], [], []⟩

/-- A tracks array that already has both pt and pT. -/
def exC4_arr : StructArr :=
  ⟨[⟨"pt", DType.f4, [Cell.cFloat 1]⟩, ⟨"pT", DType.f4, [Cell.cFloat 2]⟩], 1⟩

/-- The batch with the colliding tracks group. -/
def exC4_b : Batch := [("tracks", exC4_arr)]

/-- A two-record array without the field to be inserted. -/
def exC5_arr : StructArr := ⟨[⟨"pt", DType.f4, [Cell.cFloat 1, Cell.cFloat 2]⟩], 2⟩

/-- A Transform inserting a boolean and an integer default into jets. -/
def exC6_t : Transform :=
  ⟨[], [], [], [], [("jets", [("flag", PyVal.pBool false), ("n", PyVal.pInt 7)])]⟩

/-- A jets batch before insertion. -/
def exC6_b : Batch := [("jets", ⟨[⟨"pt", DType.f4, [Cell.cFloat 3]⟩], 1⟩)]

/-- The jets batch after both defaults are inserted. -/
def exC6_b2 : Batch :=
  [("jets", ⟨[⟨"pt", DType.f4, [Cell.cFloat 3]⟩, ⟨"flag", DType.b1, [Cell.cBool false]⟩,
    ⟨"n", DType.i4, [Cell.cInt 7]⟩], 1⟩)]

/-- A Transform whose four tables all talk only about jets. -/
def exC7_t : Transform :=
  ⟨[("jets", [("pt", "pT")])], invTables [("jets", [("pt", "pT")])],
    [("jets", [("pt", [(1, 2)])])], [], [("jets", [("flag", PyVal.pBool true)])]⟩

/-- A tracks array that no table mentions. -/
def exC7_arr : StructArr := ⟨[⟨"pt", DType.f4, [Cell.cFloat 5]⟩], 1⟩

/-- A batch holding only the unconfigured tracks group. -/
def exC7_b : Batch := [("tracks", exC7_arr)]

/-- A numpy namespace knowing only the name sqrt. -/
def exC8_ns : NpNamespace := fun s => if s = "sqrt" then some idNp else none

/-- Raw arguments whose floats table uses the misspelled name sqrtt. -/
def exC8_raw : TransformArgs := ⟨none, none, some [("tracks", [("pt", "sqrtt")])], none⟩

/-- A Transform with an integer table keyed by the plain name tracks. -/
def exC9_t : Transform := ⟨[], [], [("tracks", [("fl", [(1, 2)])])], [], []⟩

/-- A batch whose only group name carries a leading slash. -/
def exC9_b : Batch := [("/tracks", ⟨[⟨"fl", DType.i4, [Cell.cInt 1]⟩], 1⟩)]

/-- Raw arguments with all four tables supplied. -/
def exC10_raw : TransformArgs :=
  ⟨some [("tracks", [("pt", "pT")])], some [("tracks", [("fl", [(1, 2)])])],
    some [("tracks", [("pt", "log")])], some [("jets", [("flag", PyVal.pBool true)])]⟩

/-- A numpy namespace knowing only the name log. -/
def exC10_ns : NpNamespace := fun s => if s = "log" then some idNp else none

/-- The normalized Transform that construction from exC10_raw produces. -/
def exC10_t : Transform :=
  ⟨[("tracks", [("pt", "pT")])], invTables [("tracks", [("pt", "pT")])],
    [("tracks", [("fl", [(1, 2)])])], [("tracks", [("pt", idNp)])],
    [("jets", [("flag", PyVal.pBool true)])]⟩

/-! Basic lemmas about the Python dict model. -/

theorem dlookup_dictSet_self {α : Type} (b : List (String × α)) (g : String) (v : α) :
    dlookup (dictSet b g v) g = some v := by
  induction b with
  | nil => simp [dictSet, dlookup]
  | cons p rest ih =>
    by_cases h : p.1 = g
    · simp [dictSet, h, dlookup]
    · simp [dictSet, h, dlookup, ih]

theorem dlookup_dictSet_ne {α : Type} (b : List (String × α)) (g k : String) (v : α)
    (h : g ≠ k) : dlookup (dictSet b k v) g = dlookup b g := by
  have hk : ¬ k = g := fun hh => h hh.symm
  induction b with
  | nil => simp [dictSet, dlookup, hk]
  | cons p rest ih =>
    by_cases hp : p.1 = k
    · have hpg : ¬ p.1 = g := by rw [hp]; exact hk
      simp [dictSet, hp, dlookup, hk, hpg]
    · simp only [dictSet, hp, if_false, dlookup]
      by_cases hg : p.1 = g
      · simp [hg]
      · simp [hg, ih]

theorem dictSet_same {α : Type} (b : List (String × α)) (g : String) (v : α)
    (h : dlookup b g = some v) : dictSet b g v = b := by
  induction b with
  | nil => simp [dlookup] at h
  | cons p rest ih =>
    by_cases hp : p.1 = g
    · rw [dlookup, if_pos hp] at h
      injection h with h2
      rw [dictSet, if_pos hp, ← hp, ← h2]
    · rw [dlookup, if_neg hp] at h
      rw [dictSet, if_neg hp, ih h]

theorem keysOf_dictSet {α : Type} (b : List (String × α)) (g : String) (v w : α)
    (h : dlookup b g = some w) : keysOf (dictSet b g v) = keysOf b := by
  induction b with
  | nil => simp [dlookup] at h
  | cons p rest ih =>
    by_cases hp : p.1 = g
    · simp [dictSet, hp, keysOf]
    · simp [dlookup, hp] at h
      simp [dictSet, hp, keysOf] at ih ⊢
      exact ih h

theorem dlookup_eq_none_iff {α : Type} (b : List (String × α)) (g : String) :
    dlookup b g = none ↔ g ∉ keysOf b := by
  induction b with
  | nil => simp [dlookup, keysOf]
  | cons p rest ih =>
    by_cases hp : p.1 = g
    · simp [dlookup, hp, keysOf]
    · have hgp : ¬ g = p.1 := fun hh => hp hh.symm
      simp [dlookup, hp, keysOf, hgp] at ih ⊢
      exact ih

theorem dlookup_isSome_of_mem_keys {α : Type} (b : List (String × α)) (g : String)
    (h : g ∈ keysOf b) : ∃ w, dlookup b g = some w := by
  cases hl : dlookup b g with
  | none => exact absurd ((dlookup_eq_none_iff b g).mp hl) (fun hn => hn h)
  | some w => exact ⟨w, rfl⟩

theorem dlookup_map_value {α β : Type} (l : List (String × α)) (f : α → β) (k : String) :
    dlookup (l.map (fun p => (p.1, f p.2))) k = (dlookup l k).map f := by
  induction l with
  | nil => simp [dlookup]
  | cons p rest ih =>
    by_cases hp : p.1 = k
    · simp [dlookup, hp]
    · simp [dlookup, hp, ih]

/-! Basic lemmas about structured-array columns. -/

theorem fieldNames_setCol (arr : StructArr) (v : String) (col : List Cell) :
    fieldNames (setCol arr v col) = fieldNames arr := by
  simp only [fieldNames, setCol, List.map_map]
  apply List.map_congr_left
  intro f _
  by_cases h : f.name = v <;> simp [h]

theorem size_setCol (arr : StructArr) (v : String) (col : List Cell) :
    (setCol arr v col).size = arr.size := rfl

theorem getCol_setCol_self (arr : StructArr) (v : String) (col : List Cell) :
    getCol (setCol arr v col) v = (getCol arr v).map (fun _ => col) := by
  show getColL _ v = _
  obtain ⟨fs, n⟩ := arr
  simp only [setCol, getCol]
  induction fs with
  | nil => simp [getColL]
  | cons f rest ih =>
    by_cases h : f.name = v
    · simp [getColL, h]
    · simp [getColL, h, ih]

theorem getCol_setCol_ne (arr : StructArr) (v w : String) (col : List Cell)
    (h : w ≠ v) : getCol (setCol arr v col) w = getCol arr w := by
  obtain ⟨fs, n⟩ := arr
  simp only [setCol, getCol]
  induction fs with
  | nil => simp [getColL]
  | cons f rest ih =>
    by_cases hf : f.name = v
    · have hfw : ¬ f.name = w := by rw [hf]; exact fun hh => h hh.symm
      have hvw : ¬ v = w := fun hh => h hh.symm
      simp [getColL, hf, hfw, hvw, ih]
    · simp only [List.map_cons, if_neg hf, getColL]
      by_cases hw : f.name = w
      · simp [hw]
      · simp [hw, ih]

theorem getCol_eq_none_iff (arr : StructArr) (v : String) :
    getCol arr v = none ↔ v ∉ fieldNames arr := by
  obtain ⟨fs, n⟩ := arr
  simp only [getCol, fieldNames]
  induction fs with
  | nil => simp [getColL]
  | cons f rest ih =>
    by_cases h : f.name = v
    · simp [getColL, h]
    · have hvf : ¬ v = f.name := fun hh => h hh.symm
      simp [getColL, h, hvf, ih]

theorem getCol_isSome_of_mem (arr : StructArr) (v : String)
    (h : v ∈ fieldNames arr) : ∃ col, getCol arr v = some col := by
  cases hc : getCol arr v with
  | none => exact absurd ((getCol_eq_none_iff arr v).mp hc) (fun hn => hn h)
  | some col => exact ⟨col, rfl⟩

theorem mem_of_getCol_eq_some (arr : StructArr) (v : String) (col : List Cell)
    (h : getCol arr v = some col) : v ∈ fieldNames arr := by
  by_contra hn
  rw [← getCol_eq_none_iff arr v] at hn
  rw [h] at hn
  exact Option.noConfusion hn

/-! Lemmas about rename-table lookups and the derived inverse dict. -/

theorem dget_not_key (m : List (String × String)) (x : String)
    (h : ∀ p ∈ m, p.1 ≠ x) : dget m x = x := by
  induction m with
  | nil => rfl
  | cons p rest ih =>
    have hp : ¬ p.1 = x := h p (List.mem_cons_self p rest)
    rw [dget, if_neg hp]
    exact ih (fun q hq => h q (List.mem_cons_of_mem p hq))

theorem dget_key_nodup (m : List (String × String)) (x y : String)
    (hnd : (m.map Prod.fst).Nodup) (hmem : (x, y) ∈ m) : dget m x = y := by
  induction m with
  | nil => simp at hmem
  | cons p rest ih =>
    simp only [List.map_cons, List.nodup_cons] at hnd
    rcases List.mem_cons.mp hmem with heq | hrest
    · rw [dget, if_pos (by rw [← heq])]
      rw [← heq]
    · have hp : ¬ p.1 = x := by
        intro hh
        exact hnd.1 (hh ▸ (List.mem_map.mpr ⟨(x, y), hrest, rfl⟩))
      rw [dget, if_neg hp]
      exact ih hnd.2 hrest

theorem mem_fst_exists (m : List (String × String)) (x : String)
    (h : x ∈ m.map Prod.fst) : ∃ y, (x, y) ∈ m := by
  rcases List.mem_map.mp h with ⟨p, hp, hpx⟩
  exact ⟨p.2, by rw [← hpx]; exact (by simpa using hp)⟩

theorem pyInsert_not_key (d : List (String × String)) (k v : String)
    (h : k ∉ d.map Prod.fst) : pyInsert d k v = d ++ [(k, v)] := by
  have hany : d.any (fun p => p.1 == k) = false := by
    rw [List.any_eq_false]
    intro p hp
    simp only [beq_iff_eq]
    intro hh
    exact h (hh ▸ List.mem_map.mpr ⟨p, hp, rfl⟩)
  simp [pyInsert, hany]

theorem pyDictOf_aux_nodup (l acc : List (String × String))
    (h : ((acc ++ l).map Prod.fst).Nodup) :
    l.foldl (fun d p => pyInsert d p.1 p.2) acc = acc ++ l := by
  induction l generalizing acc with
  | nil => simp
  | cons p rest ih =>
    have hnotin : p.1 ∉ acc.map Prod.fst := by
      simp only [List.map_append, List.nodup_append] at h
      intro hmem
      exact h.2.2 hmem (by simp)
    rw [List.foldl_cons, pyInsert_not_key acc p.1 p.2 hnotin]
    have hperm : ((acc ++ [p]) ++ rest).map Prod.fst = (acc ++ p :: rest).map Prod.fst := by
      simp
    rw [ih (acc ++ [p]) (by rw [hperm]; exact h)]
    simp

theorem pyDictOf_nodup (l : List (String × String))
    (h : (l.map Prod.fst).Nodup) : pyDictOf l = l := by
  have := pyDictOf_aux_nodup l [] (by simpa using h)
  simpa [pyDictOf] using this

theorem swapPairs_fst (m : List (String × String)) :
    (swapPairs m).map Prod.fst = m.map Prod.snd := by
  simp [swapPairs]

theorem mem_swapPairs (m : List (String × String)) (x y : String) :
    (y, x) ∈ swapPairs m ↔ (x, y) ∈ m := by
  constructor
  · intro h
    rcases List.mem_map.mp h with ⟨p, hp, hpe⟩
    have h1 : p.2 = y := congrArg Prod.fst hpe
    have h2 : p.1 = x := congrArg Prod.snd hpe
    rw [← h1, ← h2]
    simpa using hp
  · intro h
    exact List.mem_map.mpr ⟨(x, y), h, rfl⟩

theorem dropWhile_idem {α : Type} (p : α → Bool) (l : List α) :
    (l.dropWhile p).dropWhile p = l.dropWhile p := by
  induction l with
  | nil => rfl
  | cons a rest ih =>
    by_cases h : p a = true
    · simp [List.dropWhile, h, ih]
    · simp [List.dropWhile, h]

theorem stripSlash_idem (s : String) : stripSlash (stripSlash s) = stripSlash s := by
  simp [stripSlash, dropWhile_idem]

theorem map_id_of_pointwise {α : Type} (l : List α) (f : α → α)
    (h : ∀ x ∈ l, f x = x) : l.map f = l := by
  induction l with
  | nil => rfl
  | cons a rest ih =>
    rw [List.map_cons, h a (List.mem_cons_self a rest),
      ih (fun x hx => h x (List.mem_cons_of_mem a hx))]

/-! Frame lemmas: each pipeline stage only touches groups named in its own
configuration table, and skips configured groups absent from the batch. -/

theorem map_ints_aux_frame (l : List (String × List (String × List (Int × Int))))
    (b : Batch) (g : String) (h : ∀ p ∈ l, p.1 ≠ g) :
    dlookup (map_ints_aux l b) g = dlookup b g := by
  induction l generalizing b with
  | nil => rfl
  | cons p rest ih =>
    have hrest : ∀ q ∈ rest, q.1 ≠ g := fun q hq => h q (List.mem_cons_of_mem p hq)
    obtain ⟨g0, md⟩ := p
    rw [map_ints_aux]
    cases dlookup b g0 with
    | none => exact ih b hrest
    | some arr =>
      rw [ih _ hrest, dlookup_dictSet_ne]
      exact fun hh => h (g0, md) (List.mem_cons_self _ _) hh.symm

theorem map_ints_aux_skip (l : List (String × List (String × List (Int × Int))))
    (b : Batch) (h : ∀ p ∈ l, dlookup b p.1 = none) :
    map_ints_aux l b = b := by
  induction l with
  | nil => rfl
  | cons p rest ih =>
    obtain ⟨g0, md⟩ := p
    rw [map_ints_aux, h (g0, md) (List.mem_cons_self _ _)]
    exact ih (fun q hq => h q (List.mem_cons_of_mem _ hq))

theorem map_floats_aux_frame (l : List (String × List (String × NpFun)))
    (b : Batch) (g : String) (h : ∀ p ∈ l, p.1 ≠ g) :
    dlookup (map_floats_aux l b).1 g = dlookup b g := by
  induction l generalizing b with
  | nil => rfl
  | cons p rest ih =>
    have hrest : ∀ q ∈ rest, q.1 ≠ g := fun q hq => h q (List.mem_cons_of_mem p hq)
    have hg : g ≠ p.1 := fun hh => h p (List.mem_cons_self _ _) hh.symm
    obtain ⟨g0, fm⟩ := p
    rw [map_floats_aux]
    cases dlookup b g0 with
    | none => exact ih b hrest
    | some arr =>
      rcases happ : apply_floats_fields fm arr with ⟨arr2, err⟩
      cases err with
      | none =>
        simp only [happ]
        rw [ih _ hrest, dlookup_dictSet_ne _ _ _ _ hg]
      | some e =>
        simp only [happ]
        rw [dlookup_dictSet_ne _ _ _ _ hg]

theorem map_floats_aux_skip (l : List (String × List (String × NpFun)))
    (b : Batch) (h : ∀ p ∈ l, dlookup b p.1 = none) :
    map_floats_aux l b = (b, none) := by
  induction l with
  | nil => rfl
  | cons p rest ih =>
    obtain ⟨g0, fm⟩ := p
    rw [map_floats_aux, h (g0, fm) (List.mem_cons_self _ _)]
    exact ih (fun q hq => h q (List.mem_cons_of_mem _ hq))

theorem insert_variables_aux_frame (l : List (String × List (String × PyVal)))
    (b : Batch) (g : String) (h : ∀ p ∈ l, p.1 ≠ g) :
    dlookup (insert_variables_aux l b).1 g = dlookup b g := by
  induction l generalizing b with
  | nil => rfl
  | cons p rest ih =>
    have hrest : ∀ q ∈ rest, q.1 ≠ g := fun q hq => h q (List.mem_cons_of_mem p hq)
    have hg : g ≠ p.1 := fun hh => h p (List.mem_cons_self _ _) hh.symm
    obtain ⟨g0, ins⟩ := p
    rw [insert_variables_aux]
    cases dlookup b g0 with
    | none => exact ih b hrest
    | some arr =>
      rcases happ : insertGroupFields ins arr with ⟨arr2, err⟩
      cases err with
      | none =>
        simp only [happ]
        rw [ih _ hrest, dlookup_dictSet_ne _ _ _ _ hg]
      | some e =>
        simp only [happ]
        rw [dlookup_dictSet_ne _ _ _ _ hg]

theorem insert_variables_aux_skip (l : List (String × List (String × PyVal)))
    (b : Batch) (h : ∀ p ∈ l, dlookup b p.1 = none) :
    insert_variables_aux l b = (b, none) := by
  induction l with
  | nil => rfl
  | cons p rest ih =>
    obtain ⟨g0, ins⟩ := p
    rw [insert_variables_aux, h (g0, ins) (List.mem_cons_self _ _)]
    exact ih (fun q hq => h q (List.mem_cons_of_mem _ hq))

theorem map_variables_aux_frame (t : Transform) (gs : List String)
    (b : Batch) (g : String) (h : g ∉ gs) :
    dlookup (map_variables_aux t gs b).1 g = dlookup b g := by
  induction gs generalizing b with
  | nil => rfl
  | cons g0 rest ih =>
    have hrest : g ∉ rest := fun hh => h (List.mem_cons_of_mem g0 hh)
    have hg : g ≠ g0 := fun hh => h (hh ▸ List.mem_cons_self g0 rest)
    rw [map_variables_aux]
    cases dlookup b g0 with
    | none => exact ih b hrest
    | some arr =>
      rcases hdt : map_dtype t g0 (schemaOf arr) with e | dt
      · simp only [hdt]
      · simp only [hdt]
        rw [ih _ hrest, dlookup_dictSet_ne _ _ _ _ hg]

/-! Lemmas about field insertion. -/

theorem fieldNames_appendField (arr : StructArr) (v : String) (dt : DType)
    (col : List Cell) : fieldNames (appendField arr v dt col) = fieldNames arr ++ [v] := by
  simp [fieldNames, appendField]

theorem getCol_appendField_self (arr : StructArr) (v : String) (dt : DType)
    (col : List Cell) (h : v ∉ fieldNames arr) :
    getCol (appendField arr v dt col) v = some col := by
  obtain ⟨fs, n⟩ := arr
  simp only [fieldNames] at h
  simp only [getCol, appendField]
  induction fs with
  | nil => simp [getColL]
  | cons f rest ih =>
    have hf : ¬ f.name = v := by
      intro hh
      exact h (by simp [hh])
    simp only [List.cons_append, getColL, if_neg hf]
    exact ih (fun hh => h (by simpa using Or.inr hh))

theorem getCol_appendField_ne (arr : StructArr) (v w : String) (dt : DType)
    (col : List Cell) (h : w ≠ v) :
    getCol (appendField arr v dt col) w = getCol arr w := by
  have hvw : ¬ v = w := fun hh => h hh.symm
  obtain ⟨fs, n⟩ := arr
  simp only [getCol, appendField]
  induction fs with
  | nil => simp [getColL, hvw]
  | cons f rest ih =>
    by_cases hf : f.name = w
    · simp [getColL, hf]
    · simp only [List.cons_append, getColL, if_neg hf]
      exact ih

theorem getDType_appendField_self (arr : StructArr) (v : String) (dt : DType)
    (col : List Cell) (h : v ∉ fieldNames arr) :
    getDType (appendField arr v dt col) v = some dt := by
  obtain ⟨fs, n⟩ := arr
  simp only [fieldNames] at h
  simp only [getDType, appendField]
  induction fs with
  | nil => simp [getDTypeL]
  | cons f rest ih =>
    have hf : ¬ f.name = v := by
      intro hh
      exact h (by simp [hh])
    simp only [List.cons_append, getDTypeL, if_neg hf]
    exact ih (fun hh => h (by simpa using Or.inr hh))

theorem getDType_appendField_ne (arr : StructArr) (v w : String) (dt : DType)
    (col : List Cell) (h : w ≠ v) :
    getDType (appendField arr v dt col) w = getDType arr w := by
  have hvw : ¬ v = w := fun hh => h hh.symm
  obtain ⟨fs, n⟩ := arr
  simp only [getDType, appendField]
  induction fs with
  | nil => simp [getDTypeL, hvw]
  | cons f rest ih =>
    by_cases hf : f.name = w
    · simp [getDTypeL, hf]
    · simp only [List.cons_append, getDTypeL, if_neg hf]
      exact ih

theorem insertedAs_appendField (arr : StructArr) (v : String) (dt : DType) (c : Cell)
    (h : v ∉ fieldNames arr) :
    insertedAs arr (appendField arr v dt (List.replicate arr.size c)) v dt c := by
  refine ⟨rfl, fieldNames_appendField arr v dt _, getCol_appendField_self arr v dt _ h,
    getDType_appendField_self arr v dt _ h, ?_⟩
  intro w hw
  exact ⟨getCol_appendField_ne arr v w dt _ hw, getDType_appendField_ne arr v w dt _ hw⟩

theorem insertOne_mem (arr : StructArr) (v : String) (val : PyVal)
    (h : v ∈ fieldNames arr) : insertOne arr v val = (arr, none) := by
  unfold insertOne
  rw [if_pos h]

theorem insertOne_ok_names (arr arr2 : StructArr) (v : String) (val : PyVal)
    (h : insertOne arr v val = (arr2, none)) :
    (∀ w ∈ fieldNames arr, w ∈ fieldNames arr2) ∧ v ∈ fieldNames arr2 := by
  by_cases hv : v ∈ fieldNames arr
  · rw [insertOne_mem arr v val hv] at h
    injection h with h1 h2
    rw [← h1]
    exact ⟨fun w hw => hw, hv⟩
  · unfold insertOne at h
    rw [if_neg hv] at h
    cases val with
    | pBool bb =>
      simp only at h
      injection h with h1 h2
      rw [← h1]
      rw [fieldNames_appendField]
      exact ⟨fun w hw => List.mem_append_left _ hw, List.mem_append_right _ (by simp)⟩
    | pFloat q =>
      simp only at h
      injection h with h1 h2
      rw [← h1]
      rw [fieldNames_appendField]
      exact ⟨fun w hw => List.mem_append_left _ hw, List.mem_append_right _ (by simp)⟩
    | pInt z =>
      simp only at h
      injection h with h1 h2
      rw [← h1]
      rw [fieldNames_appendField]
      exact ⟨fun w hw => List.mem_append_left _ hw, List.mem_append_right _ (by simp)⟩
    | pStr s => simp at h
    | pNone => simp at h

theorem insertGroupFields_ok_names (ins : List (String × PyVal)) (arr arr2 : StructArr)
    (h : insertGroupFields ins arr = (arr2, none)) :
    (∀ w ∈ fieldNames arr, w ∈ fieldNames arr2) ∧ ∀ p ∈ ins, p.1 ∈ fieldNames arr2 := by
  induction ins generalizing arr with
  | nil =>
    rw [insertGroupFields] at h
    injection h with h1 h2
    rw [← h1]
    exact ⟨fun w hw => hw, by simp⟩
  | cons p rest ih =>
    obtain ⟨v, val⟩ := p
    rw [insertGroupFields] at h
    rcases hone : insertOne arr v val with ⟨arr1, err⟩
    rw [hone] at h
    cases err with
    | none =>
      simp only at h
      have hnames := insertOne_ok_names arr arr1 v val hone
      have hrest := ih arr1 h
      refine ⟨fun w hw => hrest.1 w (hnames.1 w hw), ?_⟩
      intro q hq
      rcases List.mem_cons.mp hq with heq | hmem
      · rw [heq]
        exact hrest.1 v hnames.2
      · exact hrest.2 q hmem
    | some e => simp at h

theorem insertGroupFields_all_mem (ins : List (String × PyVal)) (arr : StructArr)
    (h : ∀ p ∈ ins, p.1 ∈ fieldNames arr) :
    insertGroupFields ins arr = (arr, none) := by
  induction ins with
  | nil => rfl
  | cons p rest ih =>
    obtain ⟨v, val⟩ := p
    rw [insertGroupFields, insertOne_mem arr v val (h (v, val) (List.mem_cons_self _ _))]
    exact ih (fun q hq => h q (List.mem_cons_of_mem _ hq))

theorem insert_variables_aux_keys (l : List (String × List (String × PyVal)))
    (b : Batch) : keysOf (insert_variables_aux l b).1 = keysOf b := by
  induction l generalizing b with
  | nil => rfl
  | cons p rest ih =>
    obtain ⟨g, ins⟩ := p
    rw [insert_variables_aux]
    rcases hb : dlookup b g with _ | arr
    · exact ih b
    · rcases hins : insertGroupFields ins arr with ⟨arr2, err⟩
      cases err with
      | none =>
        simp only [hins]
        rw [ih _, keysOf_dictSet b g arr2 arr hb]
      | some e =>
        simp only [hins]
        rw [keysOf_dictSet b g arr2 arr hb]

theorem insert_variables_aux_mono (l : List (String × List (String × PyVal)))
    (b b2 : Batch) (h : insert_variables_aux l b = (b2, none)) (g : String)
    (arr : StructArr) (hg : dlookup b g = some arr) :
    ∃ arr2, dlookup b2 g = some arr2 ∧ ∀ w ∈ fieldNames arr, w ∈ fieldNames arr2 := by
  induction l generalizing b arr with
  | nil =>
    rw [insert_variables_aux] at h
    injection h with h1 h2
    exact ⟨arr, h1 ▸ hg, fun w hw => hw⟩
  | cons p rest ih =>
    obtain ⟨g0, ins⟩ := p
    rw [insert_variables_aux] at h
    rcases hb : dlookup b g0 with _ | arr0
    · simp only [hb] at h
      exact ih b h arr hg
    · simp only [hb] at h
      rcases hins : insertGroupFields ins arr0 with ⟨arr1, err⟩
      cases err with
      | none =>
        simp only [hins] at h
        by_cases hgg : g = g0
        · have harr : arr = arr0 := by
            rw [hgg] at hg
            rw [hg] at hb
            injection hb
          have hstep : dlookup (dictSet b g0 arr1) g = some arr1 := by
            rw [hgg]
            exact dlookup_dictSet_self b g0 arr1
          rcases ih (dictSet b g0 arr1) h arr1 hstep with ⟨arr2, hl, hs⟩
          exact ⟨arr2, hl, fun w hw =>
            hs w ((insertGroupFields_ok_names ins arr0 arr1 hins).1 w (harr ▸ hw))⟩
        · have hstep : dlookup (dictSet b g0 arr1) g = some arr := by
            rw [dlookup_dictSet_ne b g g0 arr1 hgg]
            exact hg
          exact ih (dictSet b g0 arr1) h arr hstep
      | some e =>
        simp only [hins] at h
        injection h with h1 h2
        exact Option.noConfusion h2

theorem insert_variables_aux_processed (l : List (String × List (String × PyVal)))
    (b b2 : Batch) (h : insert_variables_aux l b = (b2, none)) (g : String)
    (ins : List (String × PyVal)) (hmem : (g, ins) ∈ l) (arr2 : StructArr)
    (h2 : dlookup b2 g = some arr2) : ∀ p ∈ ins, p.1 ∈ fieldNames arr2 := by
  induction l generalizing b with
  | nil => simp at hmem
  | cons q rest ih =>
    obtain ⟨g0, ins0⟩ := q
    rw [insert_variables_aux] at h
    rcases hb : dlookup b g0 with _ | arr0
    · simp only [hb] at h
      rcases List.mem_cons.mp hmem with heq | hmem2
      · have hgg : g = g0 := congrArg Prod.fst heq
        have hnone : dlookup b2 g = none := by
          have hkk := insert_variables_aux_keys rest b
          rw [h] at hkk
          rw [dlookup_eq_none_iff, hkk, hgg]
          exact (dlookup_eq_none_iff b g0).mp hb
        rw [hnone] at h2
        exact Option.noConfusion h2
      · exact ih b h hmem2
    · simp only [hb] at h
      rcases hins : insertGroupFields ins0 arr0 with ⟨arr1, err⟩
      cases err with
      | none =>
        simp only [hins] at h
        rcases List.mem_cons.mp hmem with heq | hmem2
        · have hgg : g = g0 := congrArg Prod.fst heq
          have hii : ins = ins0 := congrArg Prod.snd heq
          have hstep : dlookup (dictSet b g0 arr1) g = some arr1 := by
            rw [hgg]
            exact dlookup_dictSet_self b g0 arr1
          rcases insert_variables_aux_mono rest (dictSet b g0 arr1) b2 h g arr1 hstep
            with ⟨arr3, hl3, hs3⟩
          have harr : arr3 = arr2 := by
            rw [hl3] at h2
            injection h2
          intro p hp
          rw [← harr]
          exact hs3 p.1 ((insertGroupFields_ok_names ins0 arr0 arr1 hins).2 p (hii ▸ hp))
        · exact ih (dictSet b g0 arr1) h hmem2
      | some e =>
        simp only [hins] at h
        injection h with h1 h2
        exact Option.noConfusion h2

theorem insert_variables_aux_idem (l : List (String × List (String × PyVal)))
    (b b2 : Batch) (h : insert_variables_aux l b = (b2, none)) :
    insert_variables_aux l b2 = (b2, none) := by
  induction l generalizing b with
  | nil => rw [insert_variables_aux]
  | cons p rest ih =>
    obtain ⟨g0, ins0⟩ := p
    rw [insert_variables_aux] at h ⊢
    rcases hb : dlookup b g0 with _ | arr0
    · simp only [hb] at h
      have hnone : dlookup b2 g0 = none := by
        have hkk := insert_variables_aux_keys rest b
        rw [h] at hkk
        rw [dlookup_eq_none_iff, hkk]
        exact (dlookup_eq_none_iff b g0).mp hb
      rw [hnone]
      exact ih b h
    · simp only [hb] at h
      rcases hins : insertGroupFields ins0 arr0 with ⟨arr1, err⟩
      cases err with
      | none =>
        simp only [hins] at h
        have hstep : dlookup (dictSet b g0 arr1) g0 = some arr1 :=
          dlookup_dictSet_self b g0 arr1
        rcases insert_variables_aux_mono rest (dictSet b g0 arr1) b2 h g0 arr1 hstep
          with ⟨arr2, hl2, hs2⟩
        have hall : ∀ p ∈ ins0, p.1 ∈ fieldNames arr2 := by
          intro p hp
          exact hs2 p.1 ((insertGroupFields_ok_names ins0 arr0 arr1 hins).2 p hp)
        simp only [hl2, insertGroupFields_all_mem ins0 arr2 hall]
        rw [dictSet_same b2 g0 arr2 hl2]
        exact ih (dictSet b g0 arr1) h
      | some e =>
        simp only [hins] at h
        injection h with h1 h2
        exact Option.noConfusion h2

/-! Lemmas about the numeric-recomputation stage. -/

theorem apply_floats_fields_names (fm : List (String × NpFun)) (arr : StructArr) :
    fieldNames (apply_floats_fields fm arr).1 = fieldNames arr := by
  induction fm generalizing arr with
  | nil => rfl
  | cons p rest ih =>
    obtain ⟨v0, f0⟩ := p
    rw [apply_floats_fields]
    rcases hc : getCol arr v0 with _ | col
    · rfl
    · simp only
      rw [ih (setCol arr v0 (col.map f0)), fieldNames_setCol]

theorem apply_floats_fields_err (fm : List (String × NpFun)) (arr : StructArr)
    (h : ∃ p ∈ fm, p.1 ∉ fieldNames arr) :
    ∃ e, (apply_floats_fields fm arr).2 = some e := by
  induction fm generalizing arr with
  | nil => simp at h
  | cons q rest ih =>
    obtain ⟨v0, f0⟩ := q
    rw [apply_floats_fields]
    rcases hc : getCol arr v0 with _ | col
    · exact ⟨"KeyError: " ++ v0, rfl⟩
    · simp only
      rcases h with ⟨p, hp, hnot⟩
      rcases List.mem_cons.mp hp with heq | hmem
      · exfalso
        have hv0 : v0 ∈ fieldNames arr := mem_of_getCol_eq_some arr v0 col hc
        rw [heq] at hnot
        exact hnot hv0
      · refine ih (setCol arr v0 (col.map f0)) ⟨p, hmem, ?_⟩
        rw [fieldNames_setCol]
        exact hnot

theorem apply_floats_fields_frame (fm : List (String × NpFun)) (arr : StructArr)
    (v : String) (h : ∀ p ∈ fm, p.1 ≠ v) :
    getCol (apply_floats_fields fm arr).1 v = getCol arr v := by
  induction fm generalizing arr with
  | nil => rfl
  | cons q rest ih =>
    obtain ⟨v0, f0⟩ := q
    rw [apply_floats_fields]
    rcases hc : getCol arr v0 with _ | col
    · rfl
    · simp only
      have hv0 : v ≠ v0 := fun hh => h (v0, f0) (List.mem_cons_self _ _) hh.symm
      rw [ih (setCol arr v0 (col.map f0)) (fun q hq => h q (List.mem_cons_of_mem _ hq)),
        getCol_setCol_ne arr v0 v (col.map f0) hv0]

theorem apply_floats_fields_apply (fm : List (String × NpFun)) (arr : StructArr)
    (v : String) (f : NpFun) (col : List Cell) (hmem : (v, f) ∈ fm)
    (hnd : (fm.map Prod.fst).Nodup) (hall : ∀ p ∈ fm, p.1 ∈ fieldNames arr)
    (hcol : getCol arr v = some col) :
    getCol (apply_floats_fields fm arr).1 v = some (col.map f) := by
  induction fm generalizing arr with
  | nil => simp at hmem
  | cons q rest ih =>
    obtain ⟨v0, f0⟩ := q
    simp only [List.map_cons, List.nodup_cons] at hnd
    rcases getCol_isSome_of_mem arr v0 (hall (v0, f0) (List.mem_cons_self _ _))
      with ⟨col0, hc0⟩
    rw [apply_floats_fields, hc0]
    simp only
    rcases List.mem_cons.mp hmem with heq | hmem2
    · have hv : v = v0 := congrArg Prod.fst heq
      have hf : f = f0 := congrArg Prod.snd heq
      have hcc : col = col0 := by
        rw [hv] at hcol
        rw [hcol] at hc0
        injection hc0
      have hrest : ∀ p ∈ rest, p.1 ≠ v := by
        intro p hp hpe
        rw [hv] at hpe
        exact hnd.1 (hpe ▸ List.mem_map.mpr ⟨p, hp, rfl⟩)
      rw [apply_floats_fields_frame rest (setCol arr v0 (col0.map f0)) v hrest]
      rw [hv, getCol_setCol_self arr v0 (col0.map f0), hc0]
      rw [hcc, hf]
      rfl
    · have hvv0 : v ≠ v0 := by
        intro hh
        have : v0 ∈ rest.map Prod.fst := List.mem_map.mpr ⟨(v, f), hmem2, by rw [hh]⟩
        exact hnd.1 this
      refine ih (setCol arr v0 (col0.map f0)) hmem2 hnd.2 ?_ ?_
      · intro p hp
        rw [fieldNames_setCol]
        exact hall p (List.mem_cons_of_mem _ hp)
      · rw [getCol_setCol_ne arr v0 v (col0.map f0) hvv0]
        exact hcol

/-! Lemmas about renaming and its collision check. -/

theorem mem_keys_of_dlookup {α : Type} (b : List (String × α)) (g : String) (v : α)
    (h : dlookup b g = some v) : g ∈ keysOf b := by
  by_contra hn
  rw [← dlookup_eq_none_iff] at hn
  rw [h] at hn
  exact Option.noConfusion hn

theorem schemaOf_fst (arr : StructArr) : (schemaOf arr).map Prod.fst = fieldNames arr := by
  simp [schemaOf, fieldNames]

theorem findCollision_some (m : List (String × String)) (names : List String)
    (p : String × String) (h : findCollision m names = some p) :
    p ∈ m ∧ p.1 ∈ names ∧ p.2 ∈ names := by
  induction m with
  | nil => simp [findCollision] at h
  | cons q rest ih =>
    rw [findCollision] at h
    by_cases hq : q.1 ∈ names ∧ q.2 ∈ names
    · rw [if_pos hq] at h
      injection h with h1
      rw [← h1]
      exact ⟨List.mem_cons_self _ _, hq⟩
    · rw [if_neg hq] at h
      rcases ih h with ⟨h1, h2⟩
      exact ⟨List.mem_cons_of_mem _ h1, h2⟩

theorem findCollision_none (m : List (String × String)) (names : List String)
    (h : findCollision m names = none) :
    ∀ p ∈ m, ¬(p.1 ∈ names ∧ p.2 ∈ names) := by
  induction m with
  | nil => simp
  | cons q rest ih =>
    rw [findCollision] at h
    by_cases hq : q.1 ∈ names ∧ q.2 ∈ names
    · rw [if_pos hq] at h
      exact Option.noConfusion h
    · rw [if_neg hq] at h
      intro p hp
      rcases List.mem_cons.mp hp with heq | hmem
      · rw [heq]
        exact hq
      · exact ih h p hmem

theorem map_dtype_collision (t : Transform) (g : String) (m : List (String × String))
    (dtype : List (String × DType)) (old new : String)
    (hm : dlookup t.variable_map (stripSlash g) = some m) (hmem : (old, new) ∈ m)
    (hold : old ∈ dtype.map Prod.fst) (hnew : new ∈ dtype.map Prod.fst) :
    ∃ o n, map_dtype t g dtype = .error (collisionMsg o n g) ∧ (o, n) ∈ m ∧
      o ∈ dtype.map Prod.fst ∧ n ∈ dtype.map Prod.fst := by
  have hne : m.isEmpty = false := by
    cases m with
    | nil => simp at hmem
    | cons q rest => rfl
  rw [map_dtype, hm]
  simp only [hne, Bool.false_eq_true, if_false]
  rcases hfc : findCollision m (dtype.map Prod.fst) with _ | p
  · exact absurd ⟨hold, hnew⟩ (findCollision_none m _ hfc (old, new) hmem)
  · rcases findCollision_some m _ p hfc with ⟨h1, h2, h3⟩
    exact ⟨p.1, p.2, rfl, by simpa using h1, h2, h3⟩

theorem map_variables_aux_err (t : Transform) (gs : List String) (b : Batch)
    (g : String) (arr : StructArr) (hmem : g ∈ gs) (hb : dlookup b g = some arr)
    (herr : ∃ e, map_dtype t g (schemaOf arr) = .error e) :
    (∃ e2, (map_variables_aux t gs b).2 = some e2) ∧
    dlookup (map_variables_aux t gs b).1 g = some arr := by
  induction gs generalizing b with
  | nil => simp at hmem
  | cons g0 rest ih =>
    rw [map_variables_aux]
    rcases hb0 : dlookup b g0 with _ | arr0
    · simp only [hb0]
      have hgg : g ≠ g0 := by
        intro hh
        rw [hh, hb0] at hb
        exact Option.noConfusion hb
      have hmem2 : g ∈ rest := by
        rcases List.mem_cons.mp hmem with heq | hm2
        · exact absurd heq hgg
        · exact hm2
      exact ih b hmem2 hb
    · simp only [hb0]
      rcases hdt0 : map_dtype t g0 (schemaOf arr0) with e0 | dt0
      · simp only [hdt0]
        exact ⟨⟨e0, rfl⟩, hb⟩
      · simp only [hdt0]
        have hgg : g ≠ g0 := by
          intro hh
          rcases herr with ⟨e, he⟩
          rw [hh] at he hb
          rw [hb] at hb0
          injection hb0 with harr
          rw [harr] at he
          rw [he] at hdt0
          exact Except.noConfusion hdt0
        have hmem2 : g ∈ rest := by
          rcases List.mem_cons.mp hmem with heq | hm2
          · exact absurd heq hgg
          · exact hm2
        have hb1 : dlookup (dictSet b g0 (astype arr0 dt0)) g = some arr := by
          rw [dlookup_dictSet_ne b g g0 _ hgg]
          exact hb
        exact ih (dictSet b g0 (astype arr0 dt0)) hmem2 hb1

theorem map_variables_aux_shape (t : Transform) (gs : List String) (b : Batch)
    (hnd : gs.Nodup) (g2 : String) (arr2 : StructArr)
    (hq : dlookup b g2 = some arr2) :
    dlookup (map_variables_aux t gs b).1 g2 = some arr2 ∨
    ∃ dt2, map_dtype t g2 (schemaOf arr2) = .ok dt2 ∧
      dlookup (map_variables_aux t gs b).1 g2 = some (astype arr2 dt2) := by
  induction gs generalizing b with
  | nil => exact Or.inl hq
  | cons g0 rest ih =>
    rcases List.nodup_cons.mp hnd with ⟨hg0, hrest⟩
    rw [map_variables_aux]
    rcases hb0 : dlookup b g0 with _ | arr0
    · simp only [hb0]
      exact ih b hrest hq
    · simp only [hb0]
      rcases hdt0 : map_dtype t g0 (schemaOf arr0) with e0 | dt0
      · simp only [hdt0]
        exact Or.inl hq
      · simp only [hdt0]
        by_cases hgg : g2 = g0
        · have harr : arr2 = arr0 := by
            rw [hgg] at hq
            rw [hq] at hb0
            injection hb0
          have hb1 : dlookup (dictSet b g0 (astype arr0 dt0)) g2 =
              some (astype arr0 dt0) := by
            rw [hgg]
            exact dlookup_dictSet_self b g0 _
          have hframe : dlookup (map_variables_aux t rest (dictSet b g0 (astype arr0 dt0))).1 g2 =
              some (astype arr0 dt0) := by
            rw [map_variables_aux_frame t rest _ g2 (hgg ▸ hg0)]
            exact hb1
          refine Or.inr ⟨dt0, ?_, ?_⟩
          · rw [hgg, harr]
            exact hdt0
          · rw [hframe, harr]
        · have hb1 : dlookup (dictSet b g0 (astype arr0 dt0)) g2 = some arr2 := by
            rw [dlookup_dictSet_ne b g2 g0 _ hgg]
            exact hq
          exact ih (dictSet b g0 (astype arr0 dt0)) hrest hb1

/-! Lemmas about construction-time resolution of numeric function names. -/

theorem resolveEntries_err (ns : NpNamespace) (l : List (String × String))
    (h : ∃ p ∈ l, ns p.2 = none) : ∃ e, resolveEntries ns l = .error e := by
  induction l with
  | nil => simp at h
  | cons q rest ih =>
    obtain ⟨v, fn⟩ := q
    rw [resolveEntries]
    rcases hn : ns fn with _ | f
    · exact ⟨"AttributeError: module numpy has no attribute " ++ fn, rfl⟩
    · rcases h with ⟨p, hp, hpn⟩
      rcases List.mem_cons.mp hp with heq | hmem
      · exfalso
        rw [heq] at hpn
        simp only at hpn
        rw [hpn] at hn
        exact Option.noConfusion hn
      · rcases ih ⟨p, hmem, hpn⟩ with ⟨e, he⟩
        rw [he]
        exact ⟨e, rfl⟩

theorem resolveEntries_ok_of_all (ns : NpNamespace) (l : List (String × String))
    (h : ∀ p ∈ l, (ns p.2).isSome) :
    resolveEntries ns l = .ok (l.map (fun p => (p.1, (ns p.2).getD idNp))) := by
  induction l with
  | nil => rfl
  | cons q rest ih =>
    obtain ⟨v, fn⟩ := q
    rw [resolveEntries]
    rcases hn : ns fn with _ | f
    · exfalso
      have := h (v, fn) (List.mem_cons_self _ _)
      rw [hn] at this
      exact Bool.noConfusion this
    · rw [ih (fun p hp => h p (List.mem_cons_of_mem _ hp))]
      simp [hn]

theorem resolveEntries_ok_eq (ns : NpNamespace) (l : List (String × String))
    (r : List (String × NpFun)) (h : resolveEntries ns l = .ok r) :
    r = l.map (fun p => (p.1, (ns p.2).getD idNp)) ∧ ∀ p ∈ l, (ns p.2).isSome := by
  induction l generalizing r with
  | nil =>
    rw [resolveEntries] at h
    injection h with h1
    exact ⟨h1.symm, by simp⟩
  | cons q rest ih =>
    obtain ⟨v, fn⟩ := q
    rw [resolveEntries] at h
    rcases hn : ns fn with _ | f
    · rw [hn] at h
      exact Except.noConfusion h
    · rw [hn] at h
      rcases hr : resolveEntries ns rest with e | r0
      · rw [hr] at h
        exact Except.noConfusion h
      · rw [hr] at h
        injection h with h1
        rcases ih r0 hr with ⟨ih1, ih2⟩
        constructor
        · rw [← h1, ih1]
          simp [hn]
        · intro p hp
          rcases List.mem_cons.mp hp with heq | hmem
          · rw [heq]
            simp [hn]
          · exact ih2 p hmem

theorem resolveFloats_err (ns : NpNamespace) (l : List (String × List (String × String)))
    (h : ∃ gf ∈ l, ∃ vf ∈ gf.2, ns vf.2 = none) :
    ∃ e, resolveFloats ns l = .error e := by
  induction l with
  | nil => simp at h
  | cons q rest ih =>
    obtain ⟨g, fm⟩ := q
    rw [resolveFloats]
    rcases h with ⟨gf, hgf, vf, hvf, hn⟩
    rcases List.mem_cons.mp hgf with heq | hmem
    · have hfm : ∃ p ∈ fm, ns p.2 = none := by
        refine ⟨vf, ?_, hn⟩
        have : gf.2 = fm := by rw [heq]
        rw [← this]
        exact hvf
      rcases resolveEntries_err ns fm hfm with ⟨e, he⟩
      rw [he]
      exact ⟨e, rfl⟩
    · rcases hfe : resolveEntries ns fm with e | fm2
      · exact ⟨e, rfl⟩
      · rcases ih ⟨gf, hmem, vf, hvf, hn⟩ with ⟨e, he⟩
        rw [he]
        exact ⟨e, rfl⟩

theorem resolveFloats_ok_of_all (ns : NpNamespace) (l : List (String × List (String × String)))
    (h : ∀ gf ∈ l, ∀ vf ∈ gf.2, (ns vf.2).isSome) :
    resolveFloats ns l = .ok (l.map
      (fun gf => (gf.1, gf.2.map (fun vf => (vf.1, (ns vf.2).getD idNp))))) := by
  induction l with
  | nil => rfl
  | cons q rest ih =>
    obtain ⟨g, fm⟩ := q
    rw [resolveFloats]
    rw [resolveEntries_ok_of_all ns fm (fun p hp => h (g, fm) (List.mem_cons_self _ _) p hp)]
    rw [ih (fun gf hgf vf hvf => h gf (List.mem_cons_of_mem _ hgf) vf hvf)]
    rfl

theorem resolveFloats_ok_eq (ns : NpNamespace) (l : List (String × List (String × String)))
    (r : List (String × List (String × NpFun))) (h : resolveFloats ns l = .ok r) :
    r = l.map (fun gf => (gf.1, gf.2.map (fun vf => (vf.1, (ns vf.2).getD idNp)))) ∧
    ∀ gf ∈ l, ∀ vf ∈ gf.2, (ns vf.2).isSome := by
  induction l generalizing r with
  | nil =>
    rw [resolveFloats] at h
    injection h with h1
    exact ⟨h1.symm, by simp⟩
  | cons q rest ih =>
    obtain ⟨g, fm⟩ := q
    rw [resolveFloats] at h
    rcases hfe : resolveEntries ns fm with e | fm2
    · rw [hfe] at h
      exact Except.noConfusion h
    · rw [hfe] at h
      rcases hr : resolveFloats ns rest with e | r0
      · rw [hr] at h
        exact Except.noConfusion h
      · rw [hr] at h
        injection h with h1
        rcases ih r0 hr with ⟨ih1, ih2⟩
        rcases resolveEntries_ok_eq ns fm fm2 hfe with ⟨he1, he2⟩
        constructor
        · rw [← h1, ih1, he1]
          rfl
        · intro gf hgf vf hvf
          rcases List.mem_cons.mp hgf with heq | hmem
          · refine he2 vf ?_
            have : gf.2 = fm := by rw [heq]
            rw [← this]
            exact hvf
          · exact ih2 gf hmem vf hvf

/-! Pointwise round-trip lemmas for forward and inverse name lookup. -/

theorem dget_roundtrip_fwd (m : List (String × String)) (x : String)
    (hk : (m.map Prod.fst).Nodup) (hv : (m.map Prod.snd).Nodup)
    (hside : (∃ y, (x, y) ∈ m) ∨ (∀ p ∈ m, p.2 ≠ x)) :
    dget (swapPairs m) (dget m x) = x := by
  by_cases hx : ∃ y, (x, y) ∈ m
  · rcases hx with ⟨y, hy⟩
    rw [dget_key_nodup m x y hk hy]
    exact dget_key_nodup (swapPairs m) y x
      (by rw [swapPairs_fst]; exact hv) ((mem_swapPairs m x y).mpr hy)
  · have hnk : ∀ p ∈ m, p.1 ≠ x := by
      intro p hp hpe
      exact hx ⟨p.2, by rw [← hpe]; simpa using hp⟩
    have hnv : ∀ p ∈ m, p.2 ≠ x := by
      rcases hside with hl | hr
      · exact absurd hl hx
      · exact hr
    rw [dget_not_key m x hnk]
    refine dget_not_key (swapPairs m) x ?_
    intro q hq
    rcases List.mem_map.mp hq with ⟨p, hp, hpe⟩
    have : q.1 = p.2 := by rw [← hpe]
    rw [this]
    exact hnv p hp

theorem dget_roundtrip_inv (m : List (String × String)) (y : String)
    (hk : (m.map Prod.fst).Nodup) (hv : (m.map Prod.snd).Nodup)
    (hside : (∃ x, (x, y) ∈ m) ∨ (∀ p ∈ m, p.1 ≠ y)) :
    dget m (dget (swapPairs m) y) = y := by
  by_cases hy : ∃ x, (x, y) ∈ m
  · rcases hy with ⟨x, hx⟩
    rw [dget_key_nodup (swapPairs m) y x
      (by rw [swapPairs_fst]; exact hv) ((mem_swapPairs m x y).mpr hx)]
    exact dget_key_nodup m x y hk hx
  · have hnv : ∀ p ∈ m, p.2 ≠ y := by
      intro p hp hpe
      exact hy ⟨p.1, by rw [← hpe]; simpa using hp⟩
    have hnk : ∀ p ∈ m, p.1 ≠ y := by
      rcases hside with hl | hr
      · exact absurd hl hy
      · exact hr
    have hswapnk : ∀ q ∈ swapPairs m, q.1 ≠ y := by
      intro q hq
      rcases List.mem_map.mp hq with ⟨p, hp, hpe⟩
      have : q.1 = p.2 := by rw [← hpe]
      rw [this]
      exact hnv p hp
    rw [dget_not_key (swapPairs m) y hswapnk]
    exact dget_not_key m y hnk

/-! Claim theorems. -/

/-- C1: the claim says map_ints applies an ints_map table as independent,
conflict-free substitutions, each original value being mapped exactly once
and never chained.  The code instead loops `data[data == old] = new` in
place, so with the table `1 to 2, 2 to 3` the original value 1 is first
rewritten to 2 and then rewritten again to 3 by the later entry: the code
chains, and its result differs from the conflict-free single-pass
substitution the spec mandates. -/
theorem map_ints_chains_on_overlapping_table :
    map_ints exC1_t exC1_b =
      [("tracks", ⟨[⟨"flavor", DType.i4, [Cell.cInt 3, Cell.cInt 3]⟩], 2⟩)] ∧
    map_ints_field exC1_im [Cell.cInt 1, Cell.cInt 2] = [Cell.cInt 3, Cell.cInt 3] ∧
    map_ints_field_onepass exC1_im [Cell.cInt 1, Cell.cInt 2] = [Cell.cInt 2, Cell.cInt 3] ∧
    map_ints_field exC1_im [Cell.cInt 1, Cell.cInt 2] ≠
      map_ints_field_onepass exC1_im [Cell.cInt 1, Cell.cInt 2] := by decide

/-- C2 counterexample: forward-then-inverse name translation is not the
identity on every list.  With the rename table `pt to pT`, the list
containing the bare target name pT passes through the forward direction
unchanged and is then pulled back to pt by the inverse direction. -/
theorem map_variable_names_roundtrip_fails :
    map_variable_names exC2_t "tracks"
      (map_variable_names exC2_t "tracks" ["pT"] false) true = ["pt"] ∧
    (["pt"] : List String) ≠ ["pT"] := by decide

/-- C2 (amended): for a group with a rename table, forward-then-inverse
translation returns the original list provided the table is injective (its
new names are distinct; old names are distinct because the table is a
Python dict) and no listed name is a rename target without being an old
name; inverse-then-forward likewise, provided no listed name is an old
name without being a rename target. -/
theorem map_variable_names_roundtrip (t : Transform) (g : String)
    (m : List (String × String)) (vs : List String)
    (hinv : t.variable_map_inv = invTables t.variable_map)
    (hm : dlookup t.variable_map (stripSlash g) = some m)
    (hk : (m.map Prod.fst).Nodup) (hv : (m.map Prod.snd).Nodup) :
    ((∀ x ∈ vs, (∃ y, (x, y) ∈ m) ∨ (∀ p ∈ m, p.2 ≠ x)) →
      map_variable_names t g (map_variable_names t g vs false) true = vs) ∧
    ((∀ y ∈ vs, (∃ x, (x, y) ∈ m) ∨ (∀ p ∈ m, p.1 ≠ y)) →
      map_variable_names t g (map_variable_names t g vs true) false = vs) := by
  have hmi : dlookup t.variable_map_inv (stripSlash g) = some (pyDictOf (swapPairs m)) := by
    rw [hinv, invTables, dlookup_map_value t.variable_map
      (fun mm => pyDictOf (swapPairs mm)) (stripSlash g), hm]
    rfl
  have hswap : pyDictOf (swapPairs m) = swapPairs m :=
    pyDictOf_nodup _ (by rw [swapPairs_fst]; exact hv)
  cases m with
  | nil =>
    constructor <;> intro _ <;>
      simp [map_variable_names, hm, hmi, hswap, swapPairs, pyDictOf]
  | cons p0 mrest =>
    have hne : ((p0 :: mrest).isEmpty : Bool) = false := rfl
    have hnes : ((swapPairs (p0 :: mrest)).isEmpty : Bool) = false := rfl
    constructor
    · intro hside
      simp only [map_variable_names, Bool.cond_true, Bool.cond_false, hm, hmi, hswap,
        hne, hnes, Bool.false_eq_true, if_false]
      rw [List.map_map]
      exact map_id_of_pointwise vs _
        (fun x hx => dget_roundtrip_fwd _ x hk hv (hside x hx))
    · intro hside
      simp only [map_variable_names, Bool.cond_true, Bool.cond_false, hm, hmi, hswap,
        hne, hnes, Bool.false_eq_true, if_false]
      rw [List.map_map]
      exact map_id_of_pointwise vs _
        (fun y hy => dget_roundtrip_inv _ y hk hv (hside y hy))

/-- C2 witness: on the table `pt to pT` and the list `pt, eta`, the amended
round-trip law applies and gives back the original list. -/
theorem map_variable_names_roundtrip_witness :
    dlookup exC2_t.variable_map (stripSlash "tracks") = some [("pt", "pT")] ∧
    map_variable_names exC2_t "tracks"
      (map_variable_names exC2_t "tracks" ["pt", "eta"] false) true = ["pt", "eta"] := by
  refine ⟨by decide, ?_⟩
  refine (map_variable_names_roundtrip exC2_t "tracks" [("pt", "pT")] ["pt", "eta"]
    rfl (by decide) (by decide) (by decide)).1 ?_
  intro x hx
  rcases List.mem_cons.mp hx with h1 | hx2
  · rw [h1]
    exact Or.inl ⟨"pT", by decide⟩
  · rcases List.mem_cons.mp hx2 with h2 | h3
    · rw [h2]
      exact Or.inr (by decide)
    · simp at h3

/-- C3 counterexample: map_floats does not silently skip a configured field
that is absent from a present group.  With floats_map targeting field pt of
tracks and a tracks group that only has eta, the field access raises a
KeyError instead of skipping. -/
theorem map_floats_raises_on_missing_field :
    dlookup exC3_b "tracks" = some exC3_arr ∧ "pt" ∉ fieldNames exC3_arr ∧
    (map_floats exC3_t exC3_b).2 = some ("KeyError: " ++ "pt") := by decide

/-- C3 (amended): map_floats silently skips a configured group absent from
the batch; but when the group is present and a configured field is absent
from its schema it raises an error rather than skipping; when every
configured field is present, the stored function is applied elementwise to
every record of that field. -/
theorem map_floats_skip_and_apply (t : Transform) (b : Batch)
    (fm : List (String × NpFun)) (arr : StructArr) :
    ((∀ p ∈ t.floats_map, dlookup b p.1 = none) → map_floats t b = (b, none)) ∧
    ((∃ p ∈ fm, p.1 ∉ fieldNames arr) → ∃ e, (apply_floats_fields fm arr).2 = some e) ∧
    (∀ v f col, (v, f) ∈ fm → (fm.map Prod.fst).Nodup →
      (∀ p ∈ fm, p.1 ∈ fieldNames arr) → getCol arr v = some col →
      getCol (apply_floats_fields fm arr).1 v = some (col.map f)) :=
  ⟨fun h => map_floats_aux_skip t.floats_map b h,
   fun h => apply_floats_fields_err fm arr h,
   fun v f col hmem hnd hall hcol =>
     apply_floats_fields_apply fm arr v f col hmem hnd hall hcol⟩

/-- C3 witness: a present field eta is mapped elementwise over its one
record by the per-group loop. -/
theorem map_floats_skip_and_apply_witness :
    getCol exC3_arr "eta" = some [Cell.cFloat 1] ∧
    getCol (apply_floats_fields [("eta", idNp)] exC3_arr).1 "eta" =
      some ([Cell.cFloat 1].map idNp) := by
  refine ⟨by decide, ?_⟩
  refine (map_floats_skip_and_apply exC3_t exC3_b [("eta", idNp)] exC3_arr).2.2
    "eta" idNp [Cell.cFloat 1] (List.mem_cons_self _ _) (by simp) ?_ (by decide)
  intro p hp
  rcases List.mem_cons.mp hp with h1 | h2
  · rw [h1]
    decide
  · simp at h2

/-- C4: when a group's rename table maps an old name to a new name and both
already exist as distinct fields of that group, map_dtype raises a
ValueError whose message names a conflicting pair, map_variables propagates
an error, the colliding group's data is left exactly as it was, and every
group in the returned batch is either untouched or completely renamed — no
group is partially renamed. -/
theorem map_variables_collision_error (t : Transform) (b : Batch) (g : String)
    (m : List (String × String)) (arr : StructArr) (old new : String)
    (hnd : (keysOf t.variable_map).Nodup) (hstrip : stripSlash g = g)
    (hm : dlookup t.variable_map g = some m) (hmem : (old, new) ∈ m)
    (hold : old ∈ fieldNames arr) (hnew : new ∈ fieldNames arr) (_hne : old ≠ new)
    (hb : dlookup b g = some arr) :
    (∃ o n, map_dtype t g (schemaOf arr) = .error (collisionMsg o n g) ∧ (o, n) ∈ m ∧
      o ∈ fieldNames arr ∧ n ∈ fieldNames arr) ∧
    (∃ e, (map_variables t b).2 = some e) ∧
    dlookup (map_variables t b).1 g = some arr ∧
    (∀ g2 arr2, dlookup b g2 = some arr2 →
      dlookup (map_variables t b).1 g2 = some arr2 ∨
      ∃ dt2, map_dtype t g2 (schemaOf arr2) = .ok dt2 ∧
        dlookup (map_variables t b).1 g2 = some (astype arr2 dt2)) := by
  have hmS : dlookup t.variable_map (stripSlash g) = some m := by
    rw [hstrip]
    exact hm
  have hcol := map_dtype_collision t g m (schemaOf arr) old new hmS hmem
    (by rw [schemaOf_fst]; exact hold) (by rw [schemaOf_fst]; exact hnew)
  rcases hcol with ⟨o, n, he, hm2, ho, hn⟩
  rw [schemaOf_fst] at ho hn
  have herr : ∃ e, map_dtype t g (schemaOf arr) = .error e := ⟨collisionMsg o n g, he⟩
  have hkey : g ∈ keysOf t.variable_map := mem_keys_of_dlookup t.variable_map g m hm
  have haux := map_variables_aux_err t (keysOf t.variable_map) b g arr hkey hb herr
  refine ⟨⟨o, n, he, hm2, ho, hn⟩, haux.1, haux.2, ?_⟩
  intro g2 arr2 hq
  exact map_variables_aux_shape t (keysOf t.variable_map) b hnd g2 arr2 hq

/-- C4 witness: renaming pt to pT in a group that already has both fields
raises the collision error and leaves the group untouched. -/
theorem map_variables_collision_error_witness :
    dlookup exC4_t.variable_map "tracks" = some [("pt", "pT")] ∧
    ((∃ o n, map_dtype exC4_t "tracks" (schemaOf exC4_arr) = .error (collisionMsg o n "tracks") ∧
        (o, n) ∈ [("pt", "pT")] ∧ o ∈ fieldNames exC4_arr ∧ n ∈ fieldNames exC4_arr) ∧
      (∃ e, (map_variables exC4_t exC4_b).2 = some e) ∧
      dlookup (map_variables exC4_t exC4_b).1 "tracks" = some exC4_arr ∧
      (∀ g2 arr2, dlookup exC4_b g2 = some arr2 →
        dlookup (map_variables exC4_t exC4_b).1 g2 = some arr2 ∨
        ∃ dt2, map_dtype exC4_t g2 (schemaOf arr2) = .ok dt2 ∧
          dlookup (map_variables exC4_t exC4_b).1 g2 = some (astype arr2 dt2))) :=
  ⟨by decide,
   map_variables_collision_error exC4_t exC4_b "tracks" [("pt", "pT")] exC4_arr
     "pt" "pT" (by decide) (by decide) (by decide) (by decide) (by decide) (by decide)
     (by decide) (by decide)⟩

/-- C5: for a default value inserted into a group, the storage tag is
dispatched on the value type with boolean checked first (1-byte boolean),
then floating point (4-byte float), then integer (4-byte signed integer);
any other value type raises a TypeError naming the unsupported type and the
field; on success the appended column holds the constant default in every
record, and all other fields, their tags and the record count are
untouched. -/
theorem insertOne_dtype_dispatch (arr : StructArr) (v : String) (val : PyVal)
    (h : v ∉ fieldNames arr) :
    (∀ bb, val = PyVal.pBool bb → ∃ arr2, insertOne arr v val = (arr2, none) ∧
      insertedAs arr arr2 v DType.b1 (Cell.cBool bb)) ∧
    (∀ q, val = PyVal.pFloat q → ∃ arr2, insertOne arr v val = (arr2, none) ∧
      insertedAs arr arr2 v DType.f4 (Cell.cFloat q)) ∧
    (∀ z, val = PyVal.pInt z → ∃ arr2, insertOne arr v val = (arr2, none) ∧
      insertedAs arr arr2 v DType.i4 (Cell.cInt z)) ∧
    ((∀ bb, val ≠ PyVal.pBool bb) → (∀ q, val ≠ PyVal.pFloat q) →
      (∀ z, val ≠ PyVal.pInt z) →
      insertOne arr v val = (arr, some (unknownTypeMsg val v))) := by
  refine ⟨?_, ?_, ?_, ?_⟩
  · intro bb hval
    rw [hval]
    refine ⟨appendField arr v DType.b1 (List.replicate arr.size (Cell.cBool bb)), ?_, ?_⟩
    · unfold insertOne
      rw [if_neg h]
    · exact insertedAs_appendField arr v DType.b1 (Cell.cBool bb) h
  · intro q hval
    rw [hval]
    refine ⟨appendField arr v DType.f4 (List.replicate arr.size (Cell.cFloat q)), ?_, ?_⟩
    · unfold insertOne
      rw [if_neg h]
    · exact insertedAs_appendField arr v DType.f4 (Cell.cFloat q) h
  · intro z hval
    rw [hval]
    refine ⟨appendField arr v DType.i4 (List.replicate arr.size (Cell.cInt z)), ?_, ?_⟩
    · unfold insertOne
      rw [if_neg h]
    · exact insertedAs_appendField arr v DType.i4 (Cell.cInt z) h
  · intro hnb hnf hni
    cases val with
    | pBool bb => exact absurd rfl (hnb bb)
    | pFloat q => exact absurd rfl (hnf q)
    | pInt z => exact absurd rfl (hni z)
    | pStr s =>
      unfold insertOne
      rw [if_neg h]
    | pNone =>
      unfold insertOne
      rw [if_neg h]

/-- C5 witness: inserting the boolean default true as field flag into a
two-record array appends a 1-byte boolean column of constant true, and
inserting a string default raises the TypeError naming it. -/
theorem insertOne_dtype_dispatch_witness :
    "flag" ∉ fieldNames exC5_arr ∧
    (∃ arr2, insertOne exC5_arr "flag" (PyVal.pBool true) = (arr2, none) ∧
      insertedAs exC5_arr arr2 "flag" DType.b1 (Cell.cBool true)) ∧
    insertOne exC5_arr "flag" (PyVal.pStr "oops") =
      (exC5_arr, some (unknownTypeMsg (PyVal.pStr "oops") "flag")) :=
  ⟨by decide,
   (insertOne_dtype_dispatch exC5_arr "flag" (PyVal.pBool true) (by decide)).1 true rfl,
   (insertOne_dtype_dispatch exC5_arr "flag" (PyVal.pStr "oops") (by decide)).2.2.2
     (fun bb h => PyVal.noConfusion h) (fun q h => PyVal.noConfusion h)
     (fun z h => PyVal.noConfusion h)⟩

/-- C6: field insertion is idempotent.  If insert_variables succeeds on a
batch, running it again on the result changes nothing and raises no error;
and the loop body is a no-op on any field already present in the schema. -/
theorem insert_variables_idempotent (t : Transform) (b b2 : Batch)
    (h : insert_variables t b = (b2, none)) :
    insert_variables t b2 = (b2, none) ∧
    ∀ arr v val, v ∈ fieldNames arr → insertOne arr v val = (arr, none) :=
  ⟨insert_variables_aux_idem t.insert_vars b b2 h,
   fun arr v val hv => insertOne_mem arr v val hv⟩

/-- C6 witness: inserting a boolean and an integer default into jets once
gives the extended batch, and a second run returns it unchanged without
error. -/
theorem insert_variables_idempotent_witness :
    insert_variables exC6_t exC6_b = (exC6_b2, none) ∧
    insert_variables exC6_t exC6_b2 = (exC6_b2, none) :=
  ⟨by decide, (insert_variables_idempotent exC6_t exC6_b exC6_b2 (by decide)).1⟩

/-- C7: a group named in none of the four configuration tables passes
through the whole transform pipeline with its array (schema, values and
record count) unchanged, whatever happens to the other groups. -/
theorem transform_identity_on_unconfigured_group (t : Transform) (b : Batch)
    (g : String) (arr : StructArr)
    (h1 : ∀ p ∈ t.variable_map, p.1 ≠ g) (h2 : ∀ p ∈ t.ints_map, p.1 ≠ g)
    (h3 : ∀ p ∈ t.floats_map, p.1 ≠ g) (h4 : ∀ p ∈ t.insert_vars, p.1 ≠ g)
    (hb : dlookup b g = some arr) :
    dlookup (transform t b).1 g = some arr := by
  rw [transform]
  have i1 : dlookup (map_ints t b) g = some arr := by
    rw [map_ints, map_ints_aux_frame t.ints_map b g h2]
    exact hb
  rcases hf : map_floats t (map_ints t b) with ⟨bf, ef⟩
  have hf2 : map_floats_aux t.floats_map (map_ints t b) = (bf, ef) := hf
  have i2 : dlookup bf g = some arr := by
    have hfr := map_floats_aux_frame t.floats_map (map_ints t b) g h3
    rw [hf2] at hfr
    exact hfr.trans i1
  cases ef with
  | some e => exact i2
  | none =>
    show dlookup (match insert_variables t bf with
      | (b3, some e) => (b3, some e)
      | (b3, none) => map_variables t b3).1 g = some arr
    rcases hi : insert_variables t bf with ⟨bi, ei⟩
    have hi2 : insert_variables_aux t.insert_vars bf = (bi, ei) := hi
    have i3 : dlookup bi g = some arr := by
      have hir := insert_variables_aux_frame t.insert_vars bf g h4
      rw [hi2] at hir
      exact hir.trans i2
    cases ei with
    | some e => exact i3
    | none =>
      have hgk : g ∉ keysOf t.variable_map := by
        intro hmemk
        rcases List.mem_map.mp hmemk with ⟨p, hp, hpe⟩
        exact h1 p hp hpe
      have hfr := map_variables_aux_frame t (keysOf t.variable_map) bi g hgk
      have hmv : dlookup (map_variables t bi).1 g = dlookup bi g := hfr
      exact hmv.trans i3

/-- C7 witness: a tracks group untouched by a configuration that only
mentions jets comes out of the pipeline as it went in. -/
theorem transform_identity_on_unconfigured_group_witness :
    dlookup exC7_b "tracks" = some exC7_arr ∧
    dlookup (transform exC7_t exC7_b).1 "tracks" = some exC7_arr :=
  ⟨by decide,
   transform_identity_on_unconfigured_group exC7_t exC7_b "tracks" exC7_arr
     (by decide) (by decide) (by decide) (by decide) (by decide)⟩

/-- C8: a floats_map entry whose function name the numpy namespace does not
know makes construction fail with a lookup error; when every name resolves,
construction succeeds and the stored table holds exactly the callables the
namespace returned at construction time, so applying batches never needs
the namespace again (map_floats takes only the stored table). -/
theorem postInit_resolution (raw : TransformArgs) (ns : NpNamespace) :
    ((∃ gf ∈ raw.floats_map.getD [], ∃ vf ∈ gf.2, ns vf.2 = none) →
      ∃ e, postInit raw ns = .error e) ∧
    ((∀ gf ∈ raw.floats_map.getD [], ∀ vf ∈ gf.2, (ns vf.2).isSome) →
      ∃ t, postInit raw ns = .ok t ∧
        t.floats_map = (raw.floats_map.getD []).map
          (fun gf => (gf.1, gf.2.map (fun vf => (vf.1, (ns vf.2).getD idNp))))) := by
  constructor
  · intro h
    rcases resolveFloats_err ns (raw.floats_map.getD []) h with ⟨e, he⟩
    rw [postInit, he]
    exact ⟨e, rfl⟩
  · intro h
    rw [postInit, resolveFloats_ok_of_all ns (raw.floats_map.getD []) h]
    exact ⟨_, rfl, rfl⟩

/-- C8 witness: with a namespace knowing only sqrt, the misspelled name
sqrtt makes construction fail. -/
theorem postInit_resolution_witness :
    (∃ gf ∈ exC8_raw.floats_map.getD [], ∃ vf ∈ gf.2, exC8_ns vf.2 = none) ∧
    (∃ e, postInit exC8_raw exC8_ns = .error e) := by
  have hwit : ∃ gf ∈ exC8_raw.floats_map.getD [], ∃ vf ∈ gf.2, exC8_ns vf.2 = none :=
    ⟨("tracks", [("pt", "sqrtt")]), by decide, ("pt", "sqrtt"), by decide, rfl⟩
  exact ⟨hwit, (postInit_resolution exC8_raw exC8_ns).1 hwit⟩

/-- C9: the rename helpers look their group up with leading slashes
stripped — map_variable_names gives identical output for a name and its
stripped form, and map_dtype gives the same outcome (same renamed dtype, or
an error in both cases) — while the integer, float and insertion stages
match batch group names exactly, leaving a batch untouched when their
tables mention none of its exact keys. -/
theorem rename_lookup_strips_slashes (t : Transform) (name : String)
    (dtype : List (String × DType)) (vs : List String) (inverse : Bool) (b : Batch) :
    map_variable_names t name vs inverse =
      map_variable_names t (stripSlash name) vs inverse ∧
    (map_dtype t name dtype).toOption = (map_dtype t (stripSlash name) dtype).toOption ∧
    ((∀ p ∈ t.ints_map, dlookup b p.1 = none) → map_ints t b = b) ∧
    ((∀ p ∈ t.floats_map, dlookup b p.1 = none) → map_floats t b = (b, none)) ∧
    ((∀ p ∈ t.insert_vars, dlookup b p.1 = none) → insert_variables t b = (b, none)) := by
  refine ⟨?_, ?_, fun h => map_ints_aux_skip t.ints_map b h,
    fun h => map_floats_aux_skip t.floats_map b h,
    fun h => insert_variables_aux_skip t.insert_vars b h⟩
  · rw [map_variable_names, map_variable_names, stripSlash_idem]
  · rw [map_dtype, map_dtype, stripSlash_idem]
    rcases hm : dlookup t.variable_map (stripSlash name) with _ | m
    · rfl
    · by_cases hemp : m.isEmpty
      · simp [hemp]
      · simp only [hemp, Bool.false_eq_true, if_false]
        rcases hfc : findCollision m (dtype.map Prod.fst) with _ | p
        · rfl
        · rfl

/-- C9 witness: an integer table keyed by the plain name tracks does not
touch a batch whose only group is named with a leading slash. -/
theorem rename_lookup_strips_slashes_witness :
    (∀ p ∈ exC9_t.ints_map, dlookup exC9_b p.1 = none) ∧
    map_ints exC9_t exC9_b = exC9_b :=
  ⟨by decide,
   (rename_lookup_strips_slashes exC9_t "x" [] [] false exC9_b).2.2.1 (by decide)⟩

/-- C10: construction replaces, inside the caller-supplied floats_map
table, every function name by the callable the namespace resolves it to,
keeping the group and field structure; the other three caller-supplied
tables come through construction structurally unchanged (the inverse rename
table is a new, derived attribute). -/
theorem postInit_table_mutation (raw : TransformArgs) (ns : NpNamespace)
    (t : Transform) (h : postInit raw ns = .ok t) :
    t.variable_map = raw.variable_map.getD [] ∧
    t.variable_map_inv = invTables (raw.variable_map.getD []) ∧
    t.ints_map = raw.ints_map.getD [] ∧
    t.insert_vars = raw.insert_vars.getD [] ∧
    (∀ gf ∈ raw.floats_map.getD [], ∀ vf ∈ gf.2, (ns vf.2).isSome) ∧
    t.floats_map = (raw.floats_map.getD []).map
      (fun gf => (gf.1, gf.2.map (fun vf => (vf.1, (ns vf.2).getD idNp)))) := by
  rw [postInit] at h
  rcases hr : resolveFloats ns (raw.floats_map.getD []) with e | fm
  · rw [hr] at h
    exact Except.noConfusion h
  · rw [hr] at h
    injection h with h1
    rcases resolveFloats_ok_eq ns (raw.floats_map.getD []) fm hr with ⟨he1, he2⟩
    rw [← h1]
    exact ⟨rfl, rfl, rfl, rfl, he2, he1⟩

/-- C10 witness: constructing from all four tables under a namespace
knowing log yields the expected normalized object, with the floats table
resolved and the other tables as supplied. -/
theorem postInit_table_mutation_witness :
    postInit exC10_raw exC10_ns = .ok exC10_t ∧
    (exC10_t.variable_map = exC10_raw.variable_map.getD [] ∧
      exC10_t.variable_map_inv = invTables (exC10_raw.variable_map.getD []) ∧
      exC10_t.ints_map = exC10_raw.ints_map.getD [] ∧
      exC10_t.insert_vars = exC10_raw.insert_vars.getD [] ∧
      (∀ gf ∈ exC10_raw.floats_map.getD [], ∀ vf ∈ gf.2, (exC10_ns vf.2).isSome) ∧
      exC10_t.floats_map = (exC10_raw.floats_map.getD []).map
        (fun gf => (gf.1, gf.2.map (fun vf => (vf.1, (exC10_ns vf.2).getD idNp))))) :=
  ⟨rfl, postInit_table_mutation exC10_raw exC10_ns exC10_t rfl⟩
